import Mathlib

/-!
Verification of the RCC / PLL frequency-synthesis subsystem of an STM32H7 HAL
(`src/rcc/pll.rs`, `src/rcc/mod.rs`).

The iterative Step A input-divider (M) search is transcribed directly from the
`vco_setup!` macro's `ITERATIVE` arm, including the `u32` → `i32` casts used by
the comparison key.  Function bodies that are empty placeholders in the
reviewed snapshot (`loop {}` bodies and zero-returning stubs) are modelled
from the spec; every such definition carries a doc comment starting with
"Modelled from the spec:".
-/

set_option maxRecDepth 16000

namespace StmRcc

/-- `PllConfigStrategy` from `src/rcc/pll.rs`: strategies for configuring a PLL. -/
inductive PllConfigStrategy where
  | Normal
  | Iterative
  | Fractional
  | FractionalNotLess
deriving DecidableEq

/-- `PllConfig` from `src/rcc/pll.rs`: a strategy plus up to three requested
output taps (P, Q, R), each an optional frequency in Hz. -/
structure PllConfig where
  strategy : PllConfigStrategy
  p_ck : Option Nat
  q_ck : Option Nat
  r_ck : Option Nat
deriving DecidableEq

/-- `HSI` from `src/rcc/mod.rs` line 205: the internal oscillator is 64 MHz. -/
def HSI : Nat := 64000000

/-- `Config` from `src/rcc/mod.rs`: user-requested clock tree. -/
structure Config where
  hse : Option Nat
  bypass_hse : Bool
  sys_ck : Option Nat
  per_ck : Option Nat
  rcc_hclk : Option Nat
  rcc_pclk1 : Option Nat
  rcc_pclk2 : Option Nat
  rcc_pclk3 : Option Nat
  rcc_pclk4 : Option Nat
  pll1 : PllConfig
  pll2 : PllConfig
  pll3 : PllConfig

/-- The `pllXrge` register field values written by the `ITERATIVE` arm of
`vco_setup!` (`range2` / `range4` / `range8`). -/
inductive PllRge where
  | range2
  | range4
  | range8
deriving DecidableEq

/-- The slice of RCC register state touched by the embedded fragment of
`pll1_setup`: the `pll1rge` field of `PLLCFGR` (`none` = never written). -/
structure RccState where
  pll1rge : Option PllRge
deriving DecidableEq

/-- Rust `x as i32` for a `u32`-ranged natural: two's-complement reinterpretation. -/
def toI32 (x : Nat) : Int :=
  if x % 4294967296 < 2147483648 then ((x % 4294967296 : Nat) : Int)
  else ((x % 4294967296 : Nat) : Int) - 4294967296

/-- `pll_x_m_min` (`vco_setup!` ITERATIVE, line 75):
`($pllsrc + 15_999_999) / 16_000_000`. -/
def pll_x_m_min (pllsrc : Nat) : Nat := (pllsrc + 15999999) / 16000000

/-- `pll_x_m_max` (`vco_setup!` ITERATIVE, lines 76-79):
`pllsrc / 2_000_000` for inputs up to 127 999 999 Hz, else 63. -/
def pll_x_m_max (pllsrc : Nat) : Nat :=
  if pllsrc ≤ 127999999 then pllsrc / 2000000 else 63

/-- The list of candidate M dividers enumerated by the Rust range
`pll_x_m_min..=pll_x_m_max` (ascending, empty when min exceeds max). -/
def legalMs (pllsrc : Nat) : List Nat :=
  List.range' (pll_x_m_min pllsrc) (pll_x_m_max pllsrc + 1 - pll_x_m_min pllsrc)

/-- The comparison key of the M search (`vco_setup!` ITERATIVE, lines 83-89):
`ref_x_ck = pllsrc / m`, `pll_x_n = vco_ck_target / ref_x_ck`, and the key is
`vco_ck_target as i32 - (ref_x_ck * pll_x_n) as i32`. -/
def iter_key (pllsrc vco_ck_target m : Nat) : Int :=
  let ref_x_ck := pllsrc / m
  let pll_x_n := vco_ck_target / ref_x_ck
  toI32 vco_ck_target - toI32 (ref_x_ck * pll_x_n)

/-- Accumulator loop of Rust's `Iterator::min_by_key`: the running minimum is
replaced only on a strictly smaller key, so the first minimum wins. -/
def minByKeyAux {α β : Type} [LinearOrder β] (k : α → β) (acc : α) : List α → α
  | [] => acc
  | x :: xs => minByKeyAux k (if k x < k acc then x else acc) xs

/-- Rust's `Iterator::min_by_key`: `none` on an empty iterator, otherwise the
first element attaining the minimal key. -/
def minByKey {α β : Type} [LinearOrder β] (k : α → β) : List α → Option α
  | [] => none
  | x :: xs => some (minByKeyAux k x xs)

/-- The Step A input-divider search (`vco_setup!` ITERATIVE, lines 81-90):
`(pll_x_m_min..=pll_x_m_max).min_by_key(...)`.  `none` models the `None`
iterator result whose `.unwrap()` panics (fatal feasibility failure). -/
def pll_x_m_search (pllsrc vco_ck_target : Nat) : Option Nat :=
  minByKey (iter_key pllsrc vco_ck_target) (legalMs pllsrc)

/-- The `pllXrge` value selected from the resolved reference clock
(`vco_setup!` ITERATIVE, lines 95-104). -/
def rgeOf (ref_x_ck : Nat) : PllRge :=
  if 2000000 ≤ ref_x_ck ∧ ref_x_ck ≤ 3999999 then PllRge.range2
  else if 4000000 ≤ ref_x_ck ∧ ref_x_ck ≤ 7999999 then PllRge.range4
  else PllRge.range8

/-- Modelled from the spec: the snapshot's `vco_output_divider_setup` macro
body is a zero-returning placeholder.  Its contract (doc comment in
`src/rcc/pll.rs`: "Calculate VCO output divider (p-divider). Choose the
highest VCO frequency to give specified output.  Returns *target* VCO
frequency") together with spec Step C (divider range 1-128) and the wide
(VCOH) band upper limit of 836 MHz from the hardware reference manual: the
P divider is the largest value (at most 128, at least 1) keeping
`output * p` within the band, and the target VCO frequency is `output * p`. -/
def vco_output_divider_setup (output : Nat) : Nat × Nat :=
  let pll_x_p := max 1 (min (836000000 / output) 128)
  (output * pll_x_p, pll_x_p)

/-- Modelled from the spec: `calc_vco_ck` has a `loop` placeholder body in the
snapshot.  Spec Step B: achieved VCO = reference × (N + FRACN/8192); exact
integer arithmetic (floored to whole Hz) replaces the snapshot's f32
heuristic. -/
def calc_vco_ck (ref_ck pll_n pll_fracn : Nat) : Nat :=
  ref_ck * (8192 * pll_n + pll_fracn) / 8192

/-- Modelled from the spec: `calc_fracn` has a `loop` placeholder body in the
snapshot.  Spec Step B: "Fractional solves for the fractional value producing
the largest achieved frequency not exceeding the target", as a 13-bit
fixed-point fraction of the reference-to-feedback step (divisor 8192),
clamped to `FRACN_MAX = 8191`.  Exact integer arithmetic replaces the
snapshot's f32 heuristic.  The achieved P clock is
`ref_clk * (pll_n + fracn/8192) / pll_p`, so the exact solution of
"achieved = output" is `8192 * (output * pll_p - ref_clk * pll_n) / ref_clk`,
and rounding toward zero error from below is the floor. -/
def calc_fracn (ref_clk pll_n pll_p output : Nat) : Nat :=
  min (8192 * (output * pll_p - ref_clk * pll_n) / ref_clk) 8191

/-- The FractionalNotLess fractional value: `calc_fracn(...) + 1`
(`src/rcc/pll.rs` lines 509-515). -/
def fracn_not_less (ref_clk pll_n pll_p output : Nat) : Nat :=
  calc_fracn ref_clk pll_n pll_p output + 1

/-- Packaging of the search result: on success the resulting reference clock
is `pllsrc / m` (`vco_setup!` ITERATIVE, line 93). -/
def vco_setup_from_search (pllsrc pll_x_p vco_ck_target : Nat) :
    Option Nat → Option (Nat × Nat × Nat × Nat)
  | none => none
  | some m => some (pllsrc / m, m, pll_x_p, vco_ck_target)

/-- The Iterative-family VCO setup (`vco_setup!` ITERATIVE): resolve the
target VCO frequency and P divider, then search for the M divider.  Returns
`(ref_x_ck, pll_x_m, pll_x_p, vco_ck_target)`, or `none` when the search
iterator is empty and the Rust `.unwrap()` panics. -/
def vco_setup_iterative_model (pllsrc output : Nat) :
    Option (Nat × Nat × Nat × Nat) :=
  vco_setup_from_search pllsrc (vco_output_divider_setup output).2
    (vco_output_divider_setup output).1
    (pll_x_m_search pllsrc (vco_output_divider_setup output).1)

/-- The effective PLL source frequency (`pll_setup!`, line 125):
`self.config.hse.unwrap_or(HSI)`. -/
def pll_src (cfg : Config) : Nat := cfg.hse.getD HSI

/-- The register write and result of the Iterative-family arm of
`pll1_setup`: on success the `pll1rge` field is set from the resolved
reference clock and all three returned taps are absent (snapshot); on a
failed search the Rust code panics (`none`). -/
def pll1_from_vco :
    Option (Nat × Nat × Nat × Nat) →
      Option ((Option Nat × Option Nat × Option Nat) × RccState)
  | none => none
  | some (ref_x_ck, _, _, _) =>
    some ((none, none, none), RccState.mk (some (rgeOf ref_x_ck)))

/-- `pll1_setup` (generated by `pll_setup!` in the snapshot): returns the
three output taps and the resulting register state, or `none` when the Rust
code panics (no legal M).  In the snapshot the `NORMAL` arm of `vco_setup!`
is a zero-returning placeholder performing no register write, the
`ITERATIVE` arm writes `pll1rge` from the resolved reference clock, and both
branches of the `match pll.p_ck` return `(None, None, None)`. -/
def pll1_setup (cfg : Config) (pll : PllConfig) (rcc : RccState) :
    Option ((Option Nat × Option Nat × Option Nat) × RccState) :=
  let pllsrc := pll_src cfg
  match pll.p_ck with
  | some output =>
    match pll.strategy with
    | PllConfigStrategy.Normal => some ((none, none, none), rcc)
    | _ => pll1_from_vco (vco_setup_iterative_model pllsrc output)
  | none => some ((none, none, none), rcc)

/-- `PllConfig::default` has a `loop` placeholder body in the snapshot.
Modelled from the spec: "Default: no outputs requested, strategy = Normal". -/
def PllConfig.default : PllConfig :=
  PllConfig.mk PllConfigStrategy.Normal none none none

/-- The distance from a target VCO frequency to the closest frequency
achievable as an integer multiple of the reference (the objective claimed by
C1); `distClosest_le_natAbs` and `distClosest_is_attained` below justify the
closed form. -/
def distClosest (vco_ck_target ref_x_ck : Nat) : Nat :=
  min (vco_ck_target % ref_x_ck) (ref_x_ck - vco_ck_target % ref_x_ck)

/-- The M selection prescribed by C1's wording: scan the legal M list and
minimize the distance to the closest integer-N achievable VCO frequency,
ties broken toward the first (lowest) candidate. -/
def m_search_claim (pllsrc vco_ck_target : Nat) : Option Nat :=
  minByKey (fun m => distClosest vco_ck_target (pllsrc / m)) (legalMs pllsrc)

/-! ### Properties of `minByKey` (Rust `Iterator::min_by_key`) -/

theorem minByKeyAux_spec {α β : Type} [LinearOrder β] (k : α → β) (l : List α) :
    ∀ acc : α,
      (minByKeyAux k acc l = acc ∧ ∀ y ∈ l, k acc ≤ k y) ∨
      (∃ l1 l2, l = l1 ++ minByKeyAux k acc l :: l2 ∧
        k (minByKeyAux k acc l) < k acc ∧
        (∀ y ∈ l1, k (minByKeyAux k acc l) < k y) ∧
        (∀ y ∈ l2, k (minByKeyAux k acc l) ≤ k y)) := by
  induction l with
  | nil =>
    intro acc
    exact Or.inl ⟨rfl, by simp⟩
  | cons x xs ih =>
    intro acc
    rw [minByKeyAux]
    by_cases hx : k x < k acc
    · rw [if_pos hx]
      rcases ih x with ⟨heq, hmin⟩ | ⟨l1, l2, hsplit, hlt, h1, h2⟩
      · rw [heq]
        exact Or.inr ⟨[], xs, rfl, hx, by simp, hmin⟩
      · refine Or.inr ⟨x :: l1, l2, ?_, lt_trans hlt hx, ?_, h2⟩
        · rw [List.cons_append, ← hsplit]
        · intro y hy
          rcases List.mem_cons.mp hy with rfl | hy
          · exact hlt
          · exact h1 y hy
    · rw [if_neg hx]
      rcases ih acc with ⟨heq, hmin⟩ | ⟨l1, l2, hsplit, hlt, h1, h2⟩
      · refine Or.inl ⟨heq, ?_⟩
        intro y hy
        rcases List.mem_cons.mp hy with rfl | hy
        · exact le_of_not_lt hx
        · exact hmin y hy
      · refine Or.inr ⟨x :: l1, l2, ?_, hlt, ?_, h2⟩
        · rw [List.cons_append, ← hsplit]
        · intro y hy
          rcases List.mem_cons.mp hy with rfl | hy
          · exact lt_of_lt_of_le hlt (le_of_not_lt hx)
          · exact h1 y hy

theorem minByKey_split {α β : Type} [LinearOrder β] (k : α → β) (l : List α)
    (r : α) (h : minByKey k l = some r) :
    ∃ l1 l2, l = l1 ++ r :: l2 ∧
      (∀ y ∈ l1, k r < k y) ∧ (∀ y ∈ l2, k r ≤ k y) := by
  cases l with
  | nil => simp [minByKey] at h
  | cons x xs =>
    rw [minByKey] at h
    have hr : minByKeyAux k x xs = r := by injection h
    have hspec := minByKeyAux_spec k xs x
    rw [hr] at hspec
    rcases hspec with ⟨heq, hmin⟩ | ⟨l1, l2, hsplit, hlt, h1, h2⟩
    · refine ⟨[], xs, ?_, by simp, heq ▸ hmin⟩
      rw [List.nil_append, heq]
    · refine ⟨x :: l1, l2, ?_, ?_, h2⟩
      · rw [List.cons_append, ← hsplit]
      · intro y hy
        rcases List.mem_cons.mp hy with rfl | hy
        · exact hlt
        · exact h1 y hy

theorem minByKey_of_ne_nil {α β : Type} [LinearOrder β] (k : α → β)
    (l : List α) (h : l ≠ []) : ∃ r, minByKey k l = some r := by
  cases l with
  | nil => exact absurd rfl h
  | cons x xs => exact ⟨minByKeyAux k x xs, rfl⟩

/-- On a strictly increasing list of naturals, `minByKey` returns an element
of the list whose key is minimal, and any tie is resolved toward the lowest
element. -/
theorem minByKey_sorted_char {β : Type} [LinearOrder β] (k : Nat → β)
    (l : List Nat) (r : Nat) (hs : List.Pairwise (· < ·) l)
    (h : minByKey k l = some r) :
    r ∈ l ∧ (∀ m ∈ l, k r ≤ k m) ∧ (∀ m ∈ l, k m = k r → r ≤ m) := by
  obtain ⟨l1, l2, rfl, h1, h2⟩ := minByKey_split k l r h
  refine ⟨by simp, ?_, ?_⟩
  · intro m hm
    rcases List.mem_append.mp hm with hm | hm
    · exact le_of_lt (h1 m hm)
    · rcases List.mem_cons.mp hm with rfl | hm
      · exact le_refl _
      · exact h2 m hm
  · intro m hm heq
    rcases List.mem_append.mp hm with hm | hm
    · exact absurd heq (ne_of_gt (h1 m hm))
    · rcases List.mem_cons.mp hm with rfl | hm
      · exact le_refl _
      · have hmid := (List.pairwise_append.mp hs).2.1
        exact le_of_lt ((List.pairwise_cons.mp hmid).1 m hm)

/-! ### Properties of the legal M range -/

/-- Multiplicative characterisation of the enumerated M range. -/
theorem legalMs_iff (pllsrc m : Nat) :
    m ∈ legalMs pllsrc ↔
      pllsrc ≤ 16000000 * m ∧ 2000000 * m ≤ pllsrc ∧
        (128000000 ≤ pllsrc → m ≤ 63) := by
  rw [legalMs, List.mem_range'_1]
  unfold pll_x_m_min pll_x_m_max
  split <;> omega

/-- Any enumerated M yields a reference clock in the 2-16 MHz band. -/
theorem ref_bounds (pllsrc m : Nat) (h0 : 0 < pllsrc)
    (hm : m ∈ legalMs pllsrc) :
    2000000 ≤ pllsrc / m ∧ pllsrc / m ≤ 16000000 := by
  obtain ⟨h1, h2, h3⟩ := (legalMs_iff pllsrc m).mp hm
  have hmpos : 0 < m := by
    rcases m with _ | m
    · omega
    · omega
  constructor
  · rcases le_or_lt 128000000 pllsrc with hp | hp
    · have h63 := h3 hp
      have ha : pllsrc / 63 ≤ pllsrc / m := Nat.div_le_div_left h63 hmpos
      have hb : 128000000 / 63 ≤ pllsrc / 63 := Nat.div_le_div_right hp
      have hc : (2000000 : Nat) ≤ 128000000 / 63 := by norm_num
      exact le_trans hc (le_trans hb ha)
    · exact (Nat.le_div_iff_mul_le hmpos).mpr h2
  · calc pllsrc / m ≤ 16000000 * m / m := Nat.div_le_div_right h1
      _ = 16000000 := Nat.mul_div_cancel _ hmpos

/-- The Step A search result is a legal M minimising the snapshot's key,
with ties resolved toward the lowest candidate. -/
theorem pll_x_m_search_char (pllsrc vco r : Nat)
    (h : pll_x_m_search pllsrc vco = some r) :
    r ∈ legalMs pllsrc ∧
      (∀ m ∈ legalMs pllsrc,
        iter_key pllsrc vco r ≤ iter_key pllsrc vco m) ∧
      (∀ m ∈ legalMs pllsrc,
        iter_key pllsrc vco m = iter_key pllsrc vco r → r ≤ m) :=
  minByKey_sorted_char _ _ _
    (by rw [legalMs]; exact List.pairwise_lt_range' ..) h

/-! ### `distClosest` really is the distance to the closest achievable
integer-N frequency -/

theorem distClosest_le_natAbs (t r n : Nat) (hr : 0 < r) :
    distClosest t r ≤ ((t : Int) - ((r * n : Nat) : Int)).natAbs := by
  unfold distClosest
  have hdm : r * (t / r) + t % r = t := Nat.div_add_mod t r
  have hml : t % r < r := Nat.mod_lt t hr
  rcases le_or_lt n (t / r) with h | h
  · have hA : r * n ≤ r * (t / r) := Nat.mul_le_mul (le_refl r) h
    generalize hQ : r * n = a at hA ⊢
    generalize hB : r * (t / r) = b at hA hdm
    generalize hS : t % r = s at hdm hml ⊢
    omega
  · have hA : r * (t / r) + r ≤ r * n := by
      have h2 : r * (t / r + 1) ≤ r * n := Nat.mul_le_mul (le_refl r) h
      calc r * (t / r) + r = r * (t / r + 1) := by ring
        _ ≤ r * n := h2
    generalize hQ : r * n = a at hA ⊢
    generalize hB : r * (t / r) = b at hA hdm
    generalize hS : t % r = s at hdm hml ⊢
    omega

theorem distClosest_is_attained (t r : Nat) (hr : 0 < r) :
    ∃ n : Nat, ((t : Int) - ((r * n : Nat) : Int)).natAbs = distClosest t r := by
  unfold distClosest
  have hdm : r * (t / r) + t % r = t := Nat.div_add_mod t r
  have hml : t % r < r := Nat.mod_lt t hr
  rcases le_or_lt (t % r) (r - t % r) with h | h
  · refine ⟨t / r, ?_⟩
    generalize hB : r * (t / r) = b at hdm ⊢
    generalize hS : t % r = s at hdm hml h ⊢
    omega
  · refine ⟨t / r + 1, ?_⟩
    have hB2 : r * (t / r + 1) = r * (t / r) + r := by ring
    generalize hQ : r * (t / r + 1) = a at hB2 ⊢
    generalize hB : r * (t / r) = b at hdm hB2
    generalize hS : t % r = s at hdm hml h ⊢
    omega

/-- `x as i32` is the identity below `2^31`. -/
theorem toI32_of_lt (x : Nat) (h : x < 2147483648) : toI32 x = (x : Int) := by
  unfold toI32
  rw [Nat.mod_eq_of_lt (by omega)]
  rw [if_pos h]

/-! ### Fractional-N arithmetic -/

/-- With the integer feedback divider `n = (output*p) / ref`, the clamp in
`calc_fracn` never binds: the exact fractional solution is below 8192. -/
theorem calc_fracn_eq (ref_clk pll_p output : Nat) (hr : 0 < ref_clk) :
    calc_fracn ref_clk ((output * pll_p) / ref_clk) pll_p output =
      8192 * ((output * pll_p) % ref_clk) / ref_clk := by
  unfold calc_fracn
  have h1 : ref_clk * ((output * pll_p) / ref_clk) + (output * pll_p) % ref_clk
      = output * pll_p := Nat.div_add_mod _ _
  have h2 : output * pll_p - ref_clk * ((output * pll_p) / ref_clk)
      = (output * pll_p) % ref_clk := by omega
  rw [h2]
  have hml : (output * pll_p) % ref_clk < ref_clk := Nat.mod_lt _ hr
  have hlt : 8192 * ((output * pll_p) % ref_clk) / ref_clk < 8192 :=
    (Nat.div_lt_iff_lt_mul hr).mpr
      (Nat.mul_lt_mul_of_le_of_lt (le_refl 8192) hml (by norm_num))
  exact Nat.min_eq_left (by omega)

/-- The exact achieved VCO at the computed fractional value does not exceed
8192 × the target VCO. -/
theorem achieved_le (r o p : Nat) :
    r * (8192 * ((o * p) / r) + 8192 * ((o * p) % r) / r) ≤ 8192 * (o * p) := by
  have h1 : r * ((o * p) / r) + (o * p) % r = o * p := Nat.div_add_mod _ _
  have h2 : 8192 * ((o * p) % r) / r * r ≤ 8192 * ((o * p) % r) :=
    Nat.div_mul_le_self _ _
  calc r * (8192 * ((o * p) / r) + 8192 * ((o * p) % r) / r)
      = 8192 * (r * ((o * p) / r)) + 8192 * ((o * p) % r) / r * r := by ring
    _ ≤ 8192 * (r * ((o * p) / r)) + 8192 * ((o * p) % r) :=
        Nat.add_le_add_left h2 _
    _ = 8192 * (r * ((o * p) / r) + (o * p) % r) := by ring
    _ = 8192 * (o * p) := by rw [h1]

/-- Any fractional value whose exact achieved VCO stays at or below the
target is at most the computed one. -/
theorem fracn_max (r o p g : Nat) (hr : 0 < r)
    (hg : r * (8192 * ((o * p) / r) + g) ≤ 8192 * (o * p)) :
    g ≤ 8192 * ((o * p) % r) / r := by
  have h1 : r * ((o * p) / r) + (o * p) % r = o * p := Nat.div_add_mod _ _
  have h2 : r * (8192 * ((o * p) / r) + g)
      = 8192 * (r * ((o * p) / r)) + r * g := by ring
  have h3 : 8192 * (o * p)
      = 8192 * (r * ((o * p) / r)) + 8192 * ((o * p) % r) := by omega
  have h4 : r * g ≤ 8192 * ((o * p) % r) := by omega
  rw [Nat.le_div_iff_mul_le hr]
  calc g * r = r * g := by ring
    _ ≤ 8192 * ((o * p) % r) := h4

/-- One fractional unit above the computed value, the exact achieved VCO
strictly exceeds 8192 × the target VCO. -/
theorem fracn_succ_exceeds (r o p : Nat) (hr : 0 < r) :
    8192 * (o * p) <
      r * (8192 * ((o * p) / r) + (8192 * ((o * p) % r) / r + 1)) := by
  have h1 : r * ((o * p) / r) + (o * p) % r = o * p := Nat.div_add_mod _ _
  have h2 : r * (8192 * ((o * p) % r) / r) + 8192 * ((o * p) % r) % r
      = 8192 * ((o * p) % r) := Nat.div_add_mod _ _
  have h3 : 8192 * ((o * p) % r) % r < r := Nat.mod_lt _ hr
  have h4 : 8192 * ((o * p) % r) < r * (8192 * ((o * p) % r) / r) + r := by
    omega
  have h5 : r * (8192 * ((o * p) / r) + (8192 * ((o * p) % r) / r + 1))
      = 8192 * (r * ((o * p) / r)) +
          (r * (8192 * ((o * p) % r) / r) + r) := by ring
  have h6 : 8192 * (o * p)
      = 8192 * (r * ((o * p) / r)) + 8192 * ((o * p) % r) := by omega
  omega

/-! ### Claims -/

/-- C1 (counterexample): at input 25 MHz and target VCO 424 999 999 Hz the
Step A search selects M = 3, although M = 2 is also legal and the closest
integer-N achievable VCO frequency at reference 25 MHz / 2 is strictly
closer to the target (distance 1 Hz) than the closest one at 25 MHz / 3
(distance 16 Hz); the selection the claim prescribes is M = 2.  The code
therefore does not minimise the distance to the closest achievable
frequency. -/
theorem C1_counterexample :
    pll_x_m_search 25000000 424999999 = some 3 ∧
      2 ∈ legalMs 25000000 ∧
      distClosest 424999999 (25000000 / 2) <
        distClosest 424999999 (25000000 / 3) ∧
      m_search_claim 25000000 424999999 = some 2 :=
  ⟨by decide, by decide, by decide, by decide⟩

/-- C1 (amended): the Step A search examines every M in the legal range and
selects the M minimising the snapshot's key — the distance from the target
VCO frequency down to the largest integer-N multiple of the reference not
exceeding it (never the multiple above it) — with ties broken in favour of
the lowest legal M. -/
theorem C1_search_minimises_key (pllsrc vco r : Nat)
    (h : pll_x_m_search pllsrc vco = some r) :
    r ∈ legalMs pllsrc ∧
      (∀ m ∈ legalMs pllsrc,
        iter_key pllsrc vco r ≤ iter_key pllsrc vco m) ∧
      (∀ m ∈ legalMs pllsrc,
        iter_key pllsrc vco m = iter_key pllsrc vco r → r ≤ m) :=
  pll_x_m_search_char pllsrc vco r h

theorem C1_search_minimises_key_witness :
    5 ∈ legalMs 25000000 ∧
      (∀ m ∈ legalMs 25000000,
        iter_key 25000000 720000000 5 ≤ iter_key 25000000 720000000 m) ∧
      (∀ m ∈ legalMs 25000000,
        iter_key 25000000 720000000 m = iter_key 25000000 720000000 5 →
          5 ≤ m) :=
  C1_search_minimises_key 25000000 720000000 5 (by decide)

/-- C2: whenever the legal M range is non-empty, the Step A search succeeds
and the resulting reference frequency `input / M` lies in [2 MHz, 16 MHz]. -/
theorem C2_ref_in_band (pllsrc vco : Nat) (h0 : 0 < pllsrc)
    (h1 : pll_x_m_min pllsrc ≤ pll_x_m_max pllsrc) :
    ∃ r, pll_x_m_search pllsrc vco = some r ∧
      2000000 ≤ pllsrc / r ∧ pllsrc / r ≤ 16000000 := by
  have hne : legalMs pllsrc ≠ [] := by
    rw [legalMs, Ne, List.range'_eq_nil]
    omega
  obtain ⟨r, hr⟩ := minByKey_of_ne_nil (iter_key pllsrc vco) _ hne
  have hrr : pll_x_m_search pllsrc vco = some r := hr
  have hmem := (pll_x_m_search_char pllsrc vco r hrr).1
  obtain ⟨hb1, hb2⟩ := ref_bounds pllsrc r h0 hmem
  exact ⟨r, hrr, hb1, hb2⟩

theorem C2_ref_in_band_witness :
    ∃ r, pll_x_m_search 25000000 720000000 = some r ∧
      2000000 ≤ 25000000 / r ∧ 25000000 / r ≤ 16000000 :=
  C2_ref_in_band 25000000 720000000 (by decide) (by decide)

/-- C3: the set of M dividers enumerated by Step A is exactly the integers
between ceil(input / 16 MHz) and floor(input / 2 MHz), with the upper bound
clamped to the hardware maximum of 63 when the input is 128 MHz or above. -/
theorem C3_legal_range_exact (pllsrc m : Nat) :
    m ∈ legalMs pllsrc ↔
      (pllsrc + 16000000 - 1) / 16000000 ≤ m ∧
        m ≤ (if 128000000 ≤ pllsrc then min (pllsrc / 2000000) 63
             else pllsrc / 2000000) := by
  rw [legalMs, List.mem_range'_1]
  unfold pll_x_m_min pll_x_m_max
  split <;> split <;> omega

/-- C4: under the Iterative strategy with input 25 MHz and target P output
240 MHz, Step A resolves M = 5 (reference exactly 5 MHz, P divider 3,
target VCO 720 MHz) and the achieved P output — the achieved VCO at integer
feedback divider N = 720 MHz / 5 MHz divided by the P divider — equals
240 MHz exactly. -/
theorem C4_iterative_example :
    vco_setup_iterative_model 25000000 240000000 =
        some (5000000, 5, 3, 720000000) ∧
      calc_vco_ck 5000000 (720000000 / 5000000) 0 / 3 = 240000000 :=
  ⟨by decide, by decide⟩

/-- C6: for an input frequency with an empty legal M range, Iterative-family
PLL setup produces no divider result at all: the model returns `none`,
mirroring the fatal `.unwrap()` panic of the empty search. -/
theorem C6_no_legal_m_fails (cfg : Config) (pll : PllConfig) (rcc : RccState)
    (output : Nat) (hp : pll.p_ck = some output)
    (hs : pll.strategy ≠ PllConfigStrategy.Normal)
    (hm : pll_x_m_max (pll_src cfg) < pll_x_m_min (pll_src cfg)) :
    pll1_setup cfg pll rcc = none := by
  have hsearch : ∀ vco, pll_x_m_search (pll_src cfg) vco = none := by
    intro vco
    have hnil : legalMs (pll_src cfg) = [] := by
      rw [legalMs, List.range'_eq_nil]
      omega
    rw [pll_x_m_search, hnil]
    rfl
  obtain ⟨strat, pck, qck, rck⟩ := pll
  have hp2 : pck = some output := hp
  subst hp2
  have hs2 : strat ≠ PllConfigStrategy.Normal := hs
  have hvco : vco_setup_iterative_model (pll_src cfg) output = none := by
    show vco_setup_from_search (pll_src cfg)
        (vco_output_divider_setup output).2 (vco_output_divider_setup output).1
        (pll_x_m_search (pll_src cfg) (vco_output_divider_setup output).1) =
      none
    rw [hsearch]
    rfl
  cases strat with
  | Normal => exact absurd rfl hs2
  | Iterative =>
    show pll1_from_vco (vco_setup_iterative_model (pll_src cfg) output) = none
    rw [hvco]
    rfl
  | Fractional =>
    show pll1_from_vco (vco_setup_iterative_model (pll_src cfg) output) = none
    rw [hvco]
    rfl
  | FractionalNotLess =>
    show pll1_from_vco (vco_setup_iterative_model (pll_src cfg) output) = none
    rw [hvco]
    rfl

theorem C6_no_legal_m_fails_witness :
    pll1_setup
        (Config.mk (some 1000000) false none none none none none none none
          PllConfig.default PllConfig.default PllConfig.default)
        (PllConfig.mk PllConfigStrategy.Iterative (some 240000000) none none)
        (RccState.mk none) = none :=
  C6_no_legal_m_fails _ _ _ 240000000 rfl (by decide) (by decide)

/-- C7: the effective PLL input frequency is the configured HSE frequency
when one is configured, otherwise the 64 MHz internal HSI default. -/
theorem C7_pll_source (cfg : Config) (f : Nat) :
    (cfg.hse = some f → pll_src cfg = f) ∧
      (cfg.hse = none → pll_src cfg = 64000000) := by
  constructor
  · intro h
    rw [pll_src, h]
    rfl
  · intro h
    rw [pll_src, h]
    rfl

theorem C7_pll_source_witness :
    pll_src (Config.mk (some 25000000) false none none none none none none
        none PllConfig.default PllConfig.default PllConfig.default) =
        25000000 ∧
      pll_src (Config.mk none false none none none none none none none
        PllConfig.default PllConfig.default PllConfig.default) = 64000000 :=
  ⟨(C7_pll_source _ 25000000).1 rfl, (C7_pll_source _ 25000000).2 rfl⟩

/-- C8: the default `PllConfig` requests no output taps and uses strategy
Normal; as a total definition its construction terminates with this value. -/
theorem C8_default_config :
    PllConfig.default.strategy = PllConfigStrategy.Normal ∧
      PllConfig.default.p_ck = none ∧
      PllConfig.default.q_ck = none ∧
      PllConfig.default.r_ck = none :=
  ⟨rfl, rfl, rfl, rfl⟩

/-- C9: for every legal candidate M, the comparison key equals the target
VCO frequency minus reference × floor(target / reference); it is
non-negative and strictly below the reference frequency, and the integer-N
frequency it measures never exceeds the target. -/
theorem C9_key_measures_below (pllsrc vco m : Nat) (h0 : 0 < pllsrc)
    (hm : m ∈ legalMs pllsrc) (hv : vco < 2147483648) :
    iter_key pllsrc vco m =
        (vco : Int) - (((pllsrc / m) * (vco / (pllsrc / m)) : Nat) : Int) ∧
      0 ≤ iter_key pllsrc vco m ∧
      iter_key pllsrc vco m < ((pllsrc / m : Nat) : Int) ∧
      (pllsrc / m) * (vco / (pllsrc / m)) ≤ vco := by
  have hr2 : 2000000 ≤ pllsrc / m := (ref_bounds pllsrc m h0 hm).1
  have hrpos : 0 < pllsrc / m := by omega
  have hprod : (pllsrc / m) * (vco / (pllsrc / m)) ≤ vco :=
    Nat.mul_div_le vco (pllsrc / m)
  have hkey : iter_key pllsrc vco m =
      toI32 vco - toI32 ((pllsrc / m) * (vco / (pllsrc / m))) := rfl
  have hmod : (pllsrc / m) * (vco / (pllsrc / m)) + vco % (pllsrc / m) =
      vco := Nat.div_add_mod vco (pllsrc / m)
  have hmlt : vco % (pllsrc / m) < pllsrc / m := Nat.mod_lt vco hrpos
  rw [hkey, toI32_of_lt vco hv, toI32_of_lt _ (lt_of_le_of_lt hprod hv)]
  generalize hR : pllsrc / m = r at hprod hmod hmlt hrpos ⊢
  generalize hB : r * (vco / r) = b at hprod hmod ⊢
  generalize hS : vco % r = s at hmod hmlt ⊢
  refine ⟨rfl, ?_, ?_, ?_⟩ <;> omega

theorem C9_key_measures_below_witness :
    iter_key 25000000 720000000 5 =
        (720000000 : Int) -
          (((25000000 / 5) * (720000000 / (25000000 / 5)) : Nat) : Int) ∧
      0 ≤ iter_key 25000000 720000000 5 ∧
      iter_key 25000000 720000000 5 < ((25000000 / 5 : Nat) : Int) ∧
      (25000000 / 5) * (720000000 / (25000000 / 5)) ≤ 720000000 :=
  C9_key_measures_below 25000000 720000000 5 (by decide) (by decide)
    (by decide)

/-- C10: when the P output tap is not requested, PLL setup returns all three
taps absent and leaves the register state untouched. -/
theorem C10_no_p_ck_frame (cfg : Config) (pll : PllConfig) (rcc : RccState)
    (h : pll.p_ck = none) :
    pll1_setup cfg pll rcc = some ((none, none, none), rcc) := by
  obtain ⟨strat, pck, qck, rck⟩ := pll
  cases pck with
  | none => rfl
  | some v => exact Option.noConfusion h

theorem C10_no_p_ck_frame_witness :
    pll1_setup
        (Config.mk none false none none none none none none none
          PllConfig.default PllConfig.default PllConfig.default)
        PllConfig.default (RccState.mk none) =
      some ((none, none, none), RccState.mk none) :=
  C10_no_p_ck_frame _ _ _ rfl

/-- C5: with target VCO `t = output × p` and integer feedback divider
`n = t / ref`, the Fractional strategy's 13-bit value `f = calc_fracn` gives
an achieved P frequency not exceeding the target and is the largest 13-bit
value whose exact achieved frequency does so; the FractionalNotLess strategy
uses exactly `f + 1`, its achieved P output is never less than the target,
and is at least the Fractional strategy's achieved P output. -/
theorem C5_fractional_vs_not_less (ref_clk pll_p output t n f : Nat)
    (hr : 0 < ref_clk) (hp : 0 < pll_p)
    (ht : t = output * pll_p) (hn : n = t / ref_clk)
    (hf : f = calc_fracn ref_clk n pll_p output) :
    f ≤ 8191 ∧
      calc_vco_ck ref_clk n f / pll_p ≤ output ∧
      (∀ g, g ≤ 8191 → ref_clk * (8192 * n + g) ≤ 8192 * t → g ≤ f) ∧
      fracn_not_less ref_clk n pll_p output = f + 1 ∧
      output ≤ calc_vco_ck ref_clk n (f + 1) / pll_p ∧
      calc_vco_ck ref_clk n f / pll_p ≤ calc_vco_ck ref_clk n (f + 1) / pll_p := by
  subst ht
  subst hn
  have hfe : f = 8192 * ((output * pll_p) % ref_clk) / ref_clk := by
    rw [hf]
    exact calc_fracn_eq ref_clk pll_p output hr
  refine ⟨?_, ?_, ?_, ?_, ?_, ?_⟩
  · rw [hf]
    exact Nat.min_le_right _ _
  · have hv : ref_clk * (8192 * ((output * pll_p) / ref_clk) + f) / 8192 ≤
        output * pll_p := by
      rw [hfe]
      have h8 : ref_clk * (8192 * ((output * pll_p) / ref_clk) +
            8192 * ((output * pll_p) % ref_clk) / ref_clk) / 8192 ≤
          8192 * (output * pll_p) / 8192 :=
        Nat.div_le_div_right (achieved_le ref_clk output pll_p)
      rwa [Nat.mul_div_cancel_left _ (show (0:Nat) < 8192 by norm_num)] at h8
    show ref_clk * (8192 * ((output * pll_p) / ref_clk) + f) / 8192 / pll_p ≤
      output
    calc ref_clk * (8192 * ((output * pll_p) / ref_clk) + f) / 8192 / pll_p
        ≤ output * pll_p / pll_p := Nat.div_le_div_right hv
      _ = output := Nat.mul_div_cancel _ hp
  · intro g _ hgle
    rw [hfe]
    exact fracn_max ref_clk output pll_p g hr hgle
  · unfold fracn_not_less
    rw [hf]
  · rw [Nat.le_div_iff_mul_le hp]
    have hx := fracn_succ_exceeds ref_clk output pll_p hr
    rw [← hfe] at hx
    show output * pll_p ≤
      ref_clk * (8192 * ((output * pll_p) / ref_clk) + (f + 1)) / 8192
    rw [Nat.le_div_iff_mul_le (show (0:Nat) < 8192 by norm_num)]
    omega
  · show ref_clk * (8192 * ((output * pll_p) / ref_clk) + f) / 8192 / pll_p ≤
      ref_clk * (8192 * ((output * pll_p) / ref_clk) + (f + 1)) / 8192 / pll_p
    apply Nat.div_le_div_right
    apply Nat.div_le_div_right
    exact Nat.mul_le_mul (le_refl ref_clk) (by omega)

theorem C5_fractional_vs_not_less_witness :
    983 ≤ 8191 ∧
      calc_vco_ck 3200000 261 983 / 68 ≤ 12288000 ∧
      (∀ g, g ≤ 8191 →
        3200000 * (8192 * 261 + g) ≤ 8192 * 835584000 → g ≤ 983) ∧
      fracn_not_less 3200000 261 68 12288000 = 983 + 1 ∧
      12288000 ≤ calc_vco_ck 3200000 261 (983 + 1) / 68 ∧
      calc_vco_ck 3200000 261 983 / 68 ≤ calc_vco_ck 3200000 261 (983 + 1) / 68 :=
  C5_fractional_vs_not_less 3200000 68 12288000 835584000 261 983
    (by norm_num) (by norm_num) (by norm_num) (by norm_num) (by decide)

end StmRcc
